import Mathlib

/-!
Shallow embedding of the gossip blob-sidecar duplicate cache from
beacon_node/beacon_chain/src/observed_blob_sidecars.rs.

Machine integers (Hash256, Slot, u64 indices) are modelled as Nat: the
module performs no arithmetic on them, only equality and order
comparisons, so no wrap-around can occur. The HashMap of the source is
modelled as an association list with distinct keys and the HashSet of
observed indices as a duplicate-free list; the insert and retain
operations below mirror the corresponding std collection operations
exactly on this representation.
-/

set_option autoImplicit false

/-- Error type of the cache, mirroring the enum Error of the source:
FinalizedBlob carries the offending slot and the finalized slot,
InvalidBlobIndex carries the out-of-range index. -/
inductive CacheError where
  | FinalizedBlob (slot : Nat) (finalized_slot : Nat)
  | InvalidBlobIndex (index : Nat)
  deriving DecidableEq, Repr

/-- A blob sidecar, keeping the three fields the cache reads
(block_root, slot, index) together with the payload fields a real
sidecar carries (blob data, commitment, proof, signature), modelled
abstractly as Nat. The cache never inspects the payload fields. -/
structure BlobSidecar where
  block_root : Nat
  slot : Nat
  index : Nat
  blob : Nat
  kzg_commitment : Nat
  kzg_proof : Nat
  signed_block_header : Nat
  deriving DecidableEq, Repr

/-- Cache state: the stored finalized slot and the map from
(block_root, slot) keys to the set of observed blob indices. -/
structure ObservedBlobSidecars where
  finalized_slot : Nat
  items : List ((Nat × Nat) × List Nat)
  deriving DecidableEq, Repr

/-- Default instantiation of the cache: finalized_slot = 0, empty map. -/
def ObservedBlobSidecars.default : ObservedBlobSidecars :=
  { finalized_slot := 0, items := [] }

/-- Lookup of a key in the association-list model of the HashMap. -/
def hashMapGet : List ((Nat × Nat) × List Nat) → (Nat × Nat) → Option (List Nat)
  | [], _ => none
  | kv :: rest, key => if kv.1 = key then some kv.2 else hashMapGet rest key

/-- HashSet insert: returns the new set and whether the value did not
exist before the call (the Bool returned by std HashSet insert). -/
def hashSetInsert (s : List Nat) (v : Nat) : List Nat × Bool :=
  if v ∈ s then (s, false) else (v :: s, true)

/-- The entry(key).or_insert_with(empty).insert(v) combination of
observe_sidecar: insert v into the set stored at key, creating the
entry if absent; also returns whether v did not exist before. -/
def entryInsert : List ((Nat × Nat) × List Nat) → (Nat × Nat) → Nat →
    List ((Nat × Nat) × List Nat) × Bool
  | [], key, v => ([(key, [v])], true)
  | kv :: rest, key, v =>
    if kv.1 = key then
      let r := hashSetInsert kv.2 v
      ((kv.1, r.1) :: rest, r.2)
    else
      let r := entryInsert rest key v
      (kv :: r.1, r.2)

/-- Membership of an index in the set stored at a key, false when the
key is absent (the map_or(false, contains) of is_known). -/
def mapContains (items : List ((Nat × Nat) × List Nat)) (key : Nat × Nat) (v : Nat) : Bool :=
  match hashMapGet items key with
  | none => false
  | some s => decide (v ∈ s)

/-- Validation of sanitize_blob_sidecar: reject an index at or above
max_blobs_per_block, then reject a slot at or below a positive
finalized_slot. The max_blobs_per_block constant of the EthSpec type
parameter is passed explicitly. -/
def sanitize_blob_sidecar (maxBlobsPerBlock : Nat) (c : ObservedBlobSidecars)
    (b : BlobSidecar) : Except CacheError Unit :=
  if maxBlobsPerBlock ≤ b.index then
    .error (.InvalidBlobIndex b.index)
  else if 0 < c.finalized_slot ∧ b.slot ≤ c.finalized_slot then
    .error (.FinalizedBlob b.slot c.finalized_slot)
  else
    .ok ()

/-- The observe_sidecar operation. The Rust method mutates self and
returns Result of bool; here the pair holds the result and the state
after the call (on error the state is returned untouched, as the
early return of the source leaves self unmodified). The bool is true
when the index was already present (not did_not_exist). -/
def observe_sidecar (maxBlobsPerBlock : Nat) (c : ObservedBlobSidecars)
    (b : BlobSidecar) : Except CacheError Bool × ObservedBlobSidecars :=
  match sanitize_blob_sidecar maxBlobsPerBlock c b with
  | .error e => (.error e, c)
  | .ok _ =>
    let r := entryInsert c.items (b.block_root, b.slot) b.index
    (.ok (!r.2), { c with items := r.1 })

/-- The is_known operation: same validation, then a read-only
membership query. -/
def is_known (maxBlobsPerBlock : Nat) (c : ObservedBlobSidecars)
    (b : BlobSidecar) : Except CacheError Bool :=
  match sanitize_blob_sidecar maxBlobsPerBlock c b with
  | .error e => .error e
  | .ok _ => .ok (mapContains c.items (b.block_root, b.slot) b.index)

/-- The prune operation: a zero argument is a no-op; otherwise store
the new finalized_slot and retain only entries whose slot component is
strictly greater than it. -/
def prune (c : ObservedBlobSidecars) (finalized_slot : Nat) : ObservedBlobSidecars :=
  if finalized_slot = 0 then c
  else
    { finalized_slot := finalized_slot,
      items := c.items.filter (fun kv => decide (finalized_slot < kv.1.2)) }

/-- An operation against the cache, for stating reachability and
invariant-preservation claims over arbitrary call sequences. -/
inductive CacheOp where
  | observe (b : BlobSidecar)
  | prune (n : Nat)
  deriving DecidableEq, Repr

/-- Apply one operation to the cache state. -/
def applyOp (maxBlobsPerBlock : Nat) (c : ObservedBlobSidecars) : CacheOp → ObservedBlobSidecars
  | .observe b => (observe_sidecar maxBlobsPerBlock c b).2
  | .prune n => prune c n

/-- Apply a sequence of operations, left to right. -/
def applyOps (maxBlobsPerBlock : Nat) (c : ObservedBlobSidecars)
    (ops : List CacheOp) : ObservedBlobSidecars :=
  ops.foldl (applyOp maxBlobsPerBlock) c

/-- Invariant of claim C7 as a Boolean predicate: every key in the map
has a slot component strictly greater than the stored finalized_slot. -/
def slotAboveFinalized (c : ObservedBlobSidecars) : Bool :=
  c.items.all (fun kv => decide (c.finalized_slot < kv.1.2))

/-- Invariant of claim C8 as a Boolean predicate: every recorded index
is strictly below max_blobs_per_block. -/
def allIndicesBounded (maxBlobsPerBlock : Nat) (c : ObservedBlobSidecars) : Bool :=
  c.items.all (fun kv => kv.2.all (fun i => decide (i < maxBlobsPerBlock)))

/-- A concrete sidecar for witnesses: slot 2, index 0. -/
def sidecarA : BlobSidecar :=
  { block_root := 1, slot := 2, index := 0, blob := 10,
    kzg_commitment := 11, kzg_proof := 12, signed_block_header := 13 }

/-- A concrete sidecar for witnesses: same block and slot as sidecarA,
index 1. -/
def sidecarB : BlobSidecar :=
  { block_root := 1, slot := 2, index := 1, blob := 20,
    kzg_commitment := 21, kzg_proof := 22, signed_block_header := 23 }

/-- A concrete sidecar differing from sidecarA only in payload fields. -/
def sidecarA2 : BlobSidecar :=
  { block_root := 1, slot := 2, index := 0, blob := 99,
    kzg_commitment := 98, kzg_proof := 97, signed_block_header := 96 }

/-- A concrete sidecar for witnesses whose index 6 is out of range for a
bound of 6, at a slot that a finalized_slot of 5 would also reject. -/
def sidecarHi : BlobSidecar :=
  { block_root := 1, slot := 2, index := 6, blob := 30,
    kzg_commitment := 31, kzg_proof := 32, signed_block_header := 33 }

/-- A concrete cache state for witnesses: finalized_slot 5, one entry
at slot 3 and one at slot 7. -/
def cacheC : ObservedBlobSidecars :=
  { finalized_slot := 5, items := [((1, 3), [0]), ((4, 7), [0, 2])] }

/-! Helper lemmas about the validation step and the map model. -/

theorem sanitize_ok_iff (m : Nat) (c : ObservedBlobSidecars) (b : BlobSidecar) :
    sanitize_blob_sidecar m c b = .ok () ↔
    b.index < m ∧ (c.finalized_slot = 0 ∨ c.finalized_slot < b.slot) := by
  unfold sanitize_blob_sidecar
  split_ifs with h1 h2 <;> simp <;> omega

theorem sanitize_invalid_iff (m : Nat) (c : ObservedBlobSidecars) (b : BlobSidecar) :
    sanitize_blob_sidecar m c b = .error (.InvalidBlobIndex b.index) ↔ m ≤ b.index := by
  unfold sanitize_blob_sidecar
  split_ifs with h1 h2 <;> simp <;> omega

theorem sanitize_finalized_iff (m : Nat) (c : ObservedBlobSidecars) (b : BlobSidecar) :
    sanitize_blob_sidecar m c b = .error (.FinalizedBlob b.slot c.finalized_slot) ↔
    b.index < m ∧ 0 < c.finalized_slot ∧ b.slot ≤ c.finalized_slot := by
  unfold sanitize_blob_sidecar
  split_ifs with h1 h2 <;> simp <;> omega

theorem sanitize_congr (m : Nat) (c d : ObservedBlobSidecars) (b : BlobSidecar)
    (h : c.finalized_slot = d.finalized_slot) :
    sanitize_blob_sidecar m c b = sanitize_blob_sidecar m d b := by
  unfold sanitize_blob_sidecar
  rw [h]

theorem mem_hashSetInsert (s : List Nat) (v w : Nat) :
    w ∈ (hashSetInsert s v).1 ↔ w = v ∨ w ∈ s := by
  unfold hashSetInsert
  split_ifs with h
  · constructor
    · exact Or.inr
    · rintro (rfl | hw)
      · exact h
      · exact hw
  · simp

theorem hashSetInsert_snd (s : List Nat) (v : Nat) :
    (hashSetInsert s v).2 = !(decide (v ∈ s)) := by
  unfold hashSetInsert
  split_ifs with h <;> simp [h]

theorem entryInsert_snd (items : List ((Nat × Nat) × List Nat)) (key : Nat × Nat) (v : Nat) :
    (entryInsert items key v).2 = !(mapContains items key v) := by
  induction items with
  | nil => simp [entryInsert, mapContains, hashMapGet]
  | cons kv rest ih =>
    unfold entryInsert mapContains hashMapGet
    split_ifs with h
    · simp [hashSetInsert_snd]
    · simpa [mapContains] using ih

theorem entryInsert_fst_of_contains (items : List ((Nat × Nat) × List Nat))
    (key : Nat × Nat) (v : Nat) (h : mapContains items key v = true) :
    (entryInsert items key v).1 = items := by
  induction items with
  | nil => simp [mapContains, hashMapGet] at h
  | cons kv rest ih =>
    unfold mapContains hashMapGet at h
    unfold entryInsert
    split_ifs with hk
    · rw [if_pos hk] at h
      have hv : v ∈ kv.2 := by simpa using h
      simp [hashSetInsert, hv]
    · rw [if_neg hk] at h
      simp [ih h]

theorem hashMapGet_entryInsert_ne (items : List ((Nat × Nat) × List Nat))
    (key key2 : Nat × Nat) (v : Nat) (h : key2 ≠ key) :
    hashMapGet (entryInsert items key v).1 key2 = hashMapGet items key2 := by
  induction items with
  | nil =>
    simp [entryInsert, hashMapGet, Ne.symm h]
  | cons kv rest ih =>
    unfold entryInsert
    split_ifs with hk
    · subst hk
      unfold hashMapGet
      rw [if_neg (Ne.symm h), if_neg (Ne.symm h)]
    · unfold hashMapGet
      split_ifs with hk2
      · rfl
      · exact ih

theorem mapContains_entryInsert_same (items : List ((Nat × Nat) × List Nat))
    (key : Nat × Nat) (v w : Nat) :
    mapContains (entryInsert items key v).1 key w =
    (decide (w = v) || mapContains items key w) := by
  induction items with
  | nil => simp [entryInsert, mapContains, hashMapGet]
  | cons kv rest ih =>
    unfold entryInsert
    split_ifs with hk
    · simp [mapContains, hashMapGet, hk, mem_hashSetInsert, Bool.decide_or]
    · simp only [mapContains, hashMapGet, if_neg hk]
      exact ih

theorem mapContains_entryInsert_ne (items : List ((Nat × Nat) × List Nat))
    (key key2 : Nat × Nat) (v w : Nat) (h : ¬(key2 = key ∧ w = v)) :
    mapContains (entryInsert items key v).1 key2 w = mapContains items key2 w := by
  by_cases hk : key2 = key
  · subst hk
    have hw : w ≠ v := fun hv => h ⟨rfl, hv⟩
    rw [mapContains_entryInsert_same]
    simp [hw]
  · unfold mapContains
    rw [hashMapGet_entryInsert_ne items key key2 v hk]

theorem observe_of_sanitize_error (m : Nat) (c : ObservedBlobSidecars) (b : BlobSidecar)
    (e : CacheError) (h : sanitize_blob_sidecar m c b = .error e) :
    observe_sidecar m c b = (.error e, c) := by
  unfold observe_sidecar
  rw [h]

theorem is_known_of_sanitize_error (m : Nat) (c : ObservedBlobSidecars) (b : BlobSidecar)
    (e : CacheError) (h : sanitize_blob_sidecar m c b = .error e) :
    is_known m c b = .error e := by
  unfold is_known
  rw [h]

theorem observe_of_sanitize_ok (m : Nat) (c : ObservedBlobSidecars) (b : BlobSidecar)
    (h : sanitize_blob_sidecar m c b = .ok ()) :
    observe_sidecar m c b =
    (.ok (mapContains c.items (b.block_root, b.slot) b.index),
     { c with items := (entryInsert c.items (b.block_root, b.slot) b.index).1 }) := by
  unfold observe_sidecar
  rw [h]
  simp [entryInsert_snd]

theorem is_known_of_sanitize_ok (m : Nat) (c : ObservedBlobSidecars) (b : BlobSidecar)
    (h : sanitize_blob_sidecar m c b = .ok ()) :
    is_known m c b = .ok (mapContains c.items (b.block_root, b.slot) b.index) := by
  unfold is_known
  rw [h]

theorem observe_fst_error_iff (m : Nat) (c : ObservedBlobSidecars) (b : BlobSidecar)
    (e : CacheError) :
    (observe_sidecar m c b).1 = .error e ↔ sanitize_blob_sidecar m c b = .error e := by
  cases h : sanitize_blob_sidecar m c b with
  | error e2 => rw [observe_of_sanitize_error m c b e2 h]; simp
  | ok u => cases u; rw [observe_of_sanitize_ok m c b h]; simp

theorem is_known_error_iff (m : Nat) (c : ObservedBlobSidecars) (b : BlobSidecar)
    (e : CacheError) :
    is_known m c b = .error e ↔ sanitize_blob_sidecar m c b = .error e := by
  cases h : sanitize_blob_sidecar m c b with
  | error e2 => rw [is_known_of_sanitize_error m c b e2 h]; simp
  | ok u => cases u; rw [is_known_of_sanitize_ok m c b h]; simp

theorem observe_fixpoint_of_known (m : Nat) (c : ObservedBlobSidecars) (b : BlobSidecar)
    (hok : sanitize_blob_sidecar m c b = .ok ())
    (hknown : mapContains c.items (b.block_root, b.slot) b.index = true) :
    observe_sidecar m c b = (.ok true, c) := by
  rw [observe_of_sanitize_ok m c b hok, hknown,
    entryInsert_fst_of_contains c.items (b.block_root, b.slot) b.index hknown]

theorem observe_snd_finalized_slot (m : Nat) (c : ObservedBlobSidecars) (b : BlobSidecar) :
    (observe_sidecar m c b).2.finalized_slot = c.finalized_slot := by
  cases h : sanitize_blob_sidecar m c b with
  | error e => rw [observe_of_sanitize_error m c b e h]
  | ok u => cases u; rw [observe_of_sanitize_ok m c b h]

example : (observe_sidecar 6 ObservedBlobSidecars.default sidecarA).1 = .ok false := rfl
example :
    (observe_sidecar 6 (observe_sidecar 6 ObservedBlobSidecars.default sidecarA).2 sidecarA).1 =
    .ok true := rfl
example : is_known 6 cacheC sidecarA = .error (.FinalizedBlob 2 5) := rfl
example : prune cacheC 0 = cacheC := by decide
example : (prune cacheC 4).items = [((4, 7), [0, 2])] := by decide
example : (prune cacheC 3).items = [((4, 7), [0, 2])] := by decide

theorem applyOps_nil (m : Nat) (c : ObservedBlobSidecars) : applyOps m c [] = c := rfl

theorem applyOps_cons (m : Nat) (c : ObservedBlobSidecars) (op : CacheOp) (ops : List CacheOp) :
    applyOps m c (op :: ops) = applyOps m (applyOp m c op) ops := rfl

/-- Claim C1: for a sidecar with in-range index and non-finalized slot, the
first observe on a cache not yet holding its triple returns Ok false, and
every subsequent observe of the same triple, for any number of
repetitions with no intervening prune, returns Ok true. -/
theorem observe_first_false_then_always_true (m : Nat) (c : ObservedBlobSidecars)
    (b : BlobSidecar) (hidx : b.index < m)
    (hfin : c.finalized_slot = 0 ∨ c.finalized_slot < b.slot)
    (hnew : mapContains c.items (b.block_root, b.slot) b.index = false) :
    (observe_sidecar m c b).1 = .ok false ∧
    ∀ n : Nat,
      (observe_sidecar m
        (applyOps m c (List.replicate (n + 1) (CacheOp.observe b))) b).1 = .ok true := by
  have hok : sanitize_blob_sidecar m c b = .ok () :=
    (sanitize_ok_iff m c b).mpr ⟨hidx, hfin⟩
  have hfirst := observe_of_sanitize_ok m c b hok
  refine ⟨by rw [hfirst, hnew], ?_⟩
  set cIns : ObservedBlobSidecars :=
    { c with items := (entryInsert c.items (b.block_root, b.slot) b.index).1 } with hcIns
  have hslot1 : cIns.finalized_slot = c.finalized_slot := rfl
  have hok1 : sanitize_blob_sidecar m cIns b = .ok () := by
    rw [sanitize_congr m cIns c b hslot1]
    exact hok
  have hknown1 : mapContains cIns.items (b.block_root, b.slot) b.index = true := by
    show mapContains (entryInsert c.items (b.block_root, b.slot) b.index).1
      (b.block_root, b.slot) b.index = true
    rw [mapContains_entryInsert_same]
    simp
  have hfix : observe_sidecar m cIns b = (.ok true, cIns) :=
    observe_fixpoint_of_known m cIns b hok1 hknown1
  have hiter : ∀ k : Nat, applyOps m cIns (List.replicate k (CacheOp.observe b)) = cIns := by
    intro k
    induction k with
    | zero => rfl
    | succ k ih =>
      rw [List.replicate_succ, applyOps_cons]
      have hstep : applyOp m cIns (CacheOp.observe b) = cIns := by
        show (observe_sidecar m cIns b).2 = cIns
        rw [hfix]
      rw [hstep, ih]
  intro n
  have hstates : applyOps m c (List.replicate (n + 1) (CacheOp.observe b)) = cIns := by
    rw [List.replicate_succ, applyOps_cons]
    have hstep : applyOp m c (CacheOp.observe b) = cIns := by
      show (observe_sidecar m c b).2 = cIns
      rw [hfirst]
    rw [hstep, hiter n]
  rw [hstates, hfix]

/-- Witness for claim C1 at a concrete input: sidecarA on the empty
default cache with max_blobs_per_block 6. -/
theorem observe_first_false_then_always_true_app :
    (observe_sidecar 6 ObservedBlobSidecars.default sidecarA).1 = .ok false ∧
    (observe_sidecar 6
      (applyOps 6 ObservedBlobSidecars.default
        (List.replicate 1 (CacheOp.observe sidecarA))) sidecarA).1 = .ok true :=
  ⟨(observe_first_false_then_always_true 6 ObservedBlobSidecars.default sidecarA
      (by decide) (Or.inl rfl) (by decide)).1,
   (observe_first_false_then_always_true 6 ObservedBlobSidecars.default sidecarA
      (by decide) (Or.inl rfl) (by decide)).2 0⟩

/-- Claim C2: with a positive stored finalized_slot and an in-range index,
observe and is_known fail with the FinalizedBlob error carrying the
sidecar slot and the stored finalized slot exactly when the sidecar slot
is at or below the finalized slot, and the failing observe leaves the
state unchanged. -/
theorem finalized_rejection_iff (m : Nat) (c : ObservedBlobSidecars) (b : BlobSidecar) :
    ((observe_sidecar m c b).1 = .error (.FinalizedBlob b.slot c.finalized_slot) ↔
      b.index < m ∧ 0 < c.finalized_slot ∧ b.slot ≤ c.finalized_slot) ∧
    (is_known m c b = .error (.FinalizedBlob b.slot c.finalized_slot) ↔
      b.index < m ∧ 0 < c.finalized_slot ∧ b.slot ≤ c.finalized_slot) ∧
    (b.index < m → 0 < c.finalized_slot → b.slot ≤ c.finalized_slot →
      (observe_sidecar m c b).2 = c) := by
  refine ⟨?_, ?_, ?_⟩
  · rw [observe_fst_error_iff]
    exact sanitize_finalized_iff m c b
  · rw [is_known_error_iff]
    exact sanitize_finalized_iff m c b
  · intro h1 h2 h3
    have he : sanitize_blob_sidecar m c b = .error (.FinalizedBlob b.slot c.finalized_slot) :=
      (sanitize_finalized_iff m c b).mpr ⟨h1, h2, h3⟩
    rw [observe_of_sanitize_error m c b _ he]

/-- Witness for claim C2 at a concrete input: cacheC has finalized_slot 5
and sidecarA sits at slot 2 with index 0. -/
theorem finalized_rejection_iff_app :
    (observe_sidecar 6 cacheC sidecarA).1 = .error (.FinalizedBlob 2 5) ∧
    is_known 6 cacheC sidecarA = .error (.FinalizedBlob 2 5) ∧
    (observe_sidecar 6 cacheC sidecarA).2 = cacheC :=
  ⟨(finalized_rejection_iff 6 cacheC sidecarA).1.mpr (by decide),
   (finalized_rejection_iff 6 cacheC sidecarA).2.1.mpr (by decide),
   (finalized_rejection_iff 6 cacheC sidecarA).2.2 (by decide) (by decide) (by decide)⟩

/-- Claim C3: prune with a positive argument stores that argument as the
finalized slot, drops exactly the entries whose slot is at or below it,
and keeps every other entry with its index set intact. -/
theorem prune_pos_spec (c : ObservedBlobSidecars) (n : Nat) (hn : 0 < n) :
    (prune c n).finalized_slot = n ∧
    ∀ key s, ((key, s) ∈ (prune c n).items ↔ ((key, s) ∈ c.items ∧ n < key.2)) := by
  have hne : n ≠ 0 := Nat.pos_iff_ne_zero.mp hn
  unfold prune
  rw [if_neg hne]
  refine ⟨rfl, ?_⟩
  intro key s
  simp [List.mem_filter]

/-- Witness for claim C3 at a concrete input: pruning cacheC at slot 4
keeps the slot-7 entry and drops the slot-3 entry. -/
theorem prune_pos_spec_app :
    (prune cacheC 4).finalized_slot = 4 ∧
    (((4, 7), [0, 2]) ∈ (prune cacheC 4).items ↔
      (((4, 7), [0, 2]) ∈ cacheC.items ∧ 4 < 7)) ∧
    (((1, 3), [0]) ∈ (prune cacheC 4).items ↔
      (((1, 3), [0]) ∈ cacheC.items ∧ 4 < 3)) :=
  ⟨(prune_pos_spec cacheC 4 (by decide)).1,
   (prune_pos_spec cacheC 4 (by decide)).2 (4, 7) [0, 2],
   (prune_pos_spec cacheC 4 (by decide)).2 (1, 3) [0]⟩

/-- Claim C5: an index at or above max_blobs_per_block makes observe and
is_known fail with InvalidBlobIndex of that index, exactly then and
regardless of the other fields or the cache contents (in particular the
bound check precedes the finality check), and the failing observe leaves
the state unchanged. -/
theorem invalid_index_rejection_iff (m : Nat) (c : ObservedBlobSidecars) (b : BlobSidecar) :
    ((observe_sidecar m c b).1 = .error (.InvalidBlobIndex b.index) ↔ m ≤ b.index) ∧
    (is_known m c b = .error (.InvalidBlobIndex b.index) ↔ m ≤ b.index) ∧
    (m ≤ b.index → (observe_sidecar m c b).2 = c) := by
  refine ⟨?_, ?_, ?_⟩
  · rw [observe_fst_error_iff]
    exact sanitize_invalid_iff m c b
  · rw [is_known_error_iff]
    exact sanitize_invalid_iff m c b
  · intro h
    have he : sanitize_blob_sidecar m c b = .error (.InvalidBlobIndex b.index) :=
      (sanitize_invalid_iff m c b).mpr h
    rw [observe_of_sanitize_error m c b _ he]

/-- Witness for claim C5 at a concrete input: index 6 with bound 6, on a
cache whose finalized_slot 5 would also reject slot 2, still yields
InvalidBlobIndex rather than FinalizedBlob. -/
theorem invalid_index_rejection_iff_app :
    (observe_sidecar 6 cacheC sidecarHi).1 = .error (.InvalidBlobIndex 6) ∧
    is_known 6 cacheC sidecarHi = .error (.InvalidBlobIndex 6) ∧
    (observe_sidecar 6 cacheC sidecarHi).2 = cacheC :=
  ⟨(invalid_index_rejection_iff 6 cacheC sidecarHi).1.mpr (by decide),
   (invalid_index_rejection_iff 6 cacheC sidecarHi).2.1.mpr (by decide),
   (invalid_index_rejection_iff 6 cacheC sidecarHi).2.2 (by decide)⟩

/-- Claim C6: prune with argument 0 is a complete no-op, preserving the
stored finalized_slot and every entry of the map. -/
theorem prune_zero_noop (c : ObservedBlobSidecars) : prune c 0 = c := rfl

/-- Witness for claim C6 at a concrete input. -/
theorem prune_zero_noop_app : prune cacheC 0 = cacheC := prune_zero_noop cacheC

theorem prune_pos_finalized_slot (c : ObservedBlobSidecars) (n : Nat) (hn : 0 < n) :
    (prune c n).finalized_slot = n := by
  unfold prune
  rw [if_neg (Nat.pos_iff_ne_zero.mp hn)]

/-- Counterexample to claim C4: starting from the default cache, prune 5
reaches finalized_slot 5, and the further operation prune 3 decreases
the stored finalized_slot to 3, so finalized_slot is not monotonically
non-decreasing across operation sequences. -/
theorem finalized_slot_can_decrease :
    (applyOps 6 ObservedBlobSidecars.default
      [CacheOp.prune 5, CacheOp.prune 3]).finalized_slot <
    (applyOps 6 ObservedBlobSidecars.default [CacheOp.prune 5]).finalized_slot := by
  decide

/-- Claim C4 as amended: observe never changes finalized_slot and
prune 0 is a complete no-op, but prune with a positive argument sets
finalized_slot to that argument unconditionally, so it can decrease it;
finalized_slot never decreases provided the prune argument is at least
the current value. -/
theorem finalized_slot_update_rules (m : Nat) (c : ObservedBlobSidecars)
    (b : BlobSidecar) (n : Nat) :
    (observe_sidecar m c b).2.finalized_slot = c.finalized_slot ∧
    prune c 0 = c ∧
    (0 < n → (prune c n).finalized_slot = n) ∧
    (c.finalized_slot ≤ n → c.finalized_slot ≤ (prune c n).finalized_slot) := by
  refine ⟨observe_snd_finalized_slot m c b, rfl, prune_pos_finalized_slot c n, ?_⟩
  intro h
  by_cases hn : n = 0
  · subst hn
    exact Nat.le_refl _
  · rw [prune_pos_finalized_slot c n (Nat.pos_of_ne_zero hn)]
    exact h

/-- Witness for the amended claim C4 at a concrete input: cacheC has
finalized_slot 5 and a prune at 7 raises it to 7. -/
theorem finalized_slot_update_rules_app :
    (observe_sidecar 6 cacheC sidecarHi).2.finalized_slot = cacheC.finalized_slot ∧
    prune cacheC 0 = cacheC ∧
    (prune cacheC 7).finalized_slot = 7 ∧
    cacheC.finalized_slot ≤ (prune cacheC 7).finalized_slot :=
  ⟨(finalized_slot_update_rules 6 cacheC sidecarHi 7).1,
   (finalized_slot_update_rules 6 cacheC sidecarHi 7).2.1,
   (finalized_slot_update_rules 6 cacheC sidecarHi 7).2.2.1 (by decide),
   (finalized_slot_update_rules 6 cacheC sidecarHi 7).2.2.2 (by decide)⟩

theorem slotAboveFinalized_iff (c : ObservedBlobSidecars) :
    slotAboveFinalized c = true ↔ ∀ kv ∈ c.items, c.finalized_slot < kv.1.2 := by
  simp [slotAboveFinalized]

theorem entryInsert_keys (items : List ((Nat × Nat) × List Nat)) (key : Nat × Nat) (v : Nat) :
    ∀ kv2 ∈ (entryInsert items key v).1, kv2.1 = key ∨ ∃ kv ∈ items, kv.1 = kv2.1 := by
  induction items with
  | nil =>
    intro kv2 h
    simp [entryInsert] at h
    rw [h]
    exact Or.inl rfl
  | cons kv rest ih =>
    intro kv2 h
    unfold entryInsert at h
    split_ifs at h with hk
    · rcases List.mem_cons.mp h with h1 | h2
      · left
        rw [h1]
        exact hk
      · right
        exact ⟨kv2, List.mem_cons_of_mem _ h2, rfl⟩
    · rcases List.mem_cons.mp h with h1 | h2
      · right
        refine ⟨kv, List.mem_cons_self _ _, ?_⟩
        rw [h1]
      · rcases ih kv2 h2 with hl | ⟨kv3, hm, he⟩
        · left
          exact hl
        · right
          exact ⟨kv3, List.mem_cons_of_mem _ hm, he⟩

theorem prune_pos_slotAbove (c : ObservedBlobSidecars) (n : Nat) (hn : 0 < n) :
    slotAboveFinalized (prune c n) = true := by
  rw [slotAboveFinalized_iff]
  intro kv hkv
  rw [prune_pos_finalized_slot c n hn]
  have hkv2 : kv ∈ c.items.filter (fun kv => decide (n < kv.1.2)) := by
    unfold prune at hkv
    rw [if_neg (Nat.pos_iff_ne_zero.mp hn)] at hkv
    exact hkv
  simpa using (List.mem_filter.mp hkv2).2

theorem observe_preserves_inv (m : Nat) (c : ObservedBlobSidecars) (b : BlobSidecar)
    (hfs : 0 < c.finalized_slot) (hinv : slotAboveFinalized c = true) :
    0 < (observe_sidecar m c b).2.finalized_slot ∧
    slotAboveFinalized (observe_sidecar m c b).2 = true := by
  cases h : sanitize_blob_sidecar m c b with
  | error e =>
    rw [observe_of_sanitize_error m c b e h]
    exact ⟨hfs, hinv⟩
  | ok u =>
    cases u
    rw [observe_of_sanitize_ok m c b h]
    refine ⟨hfs, ?_⟩
    rw [slotAboveFinalized_iff] at hinv ⊢
    intro kv hkv
    rcases entryInsert_keys c.items (b.block_root, b.slot) b.index kv hkv with hk | ⟨kv3, hm, he⟩
    · have hslot : c.finalized_slot < b.slot := by
        rcases (sanitize_ok_iff m c b).mp h with ⟨_, hfin⟩
        rcases hfin with h0 | hlt
        · omega
        · exact hlt
      show c.finalized_slot < kv.1.2
      rw [hk]
      exact hslot
    · show c.finalized_slot < kv.1.2
      rw [← he]
      exact hinv kv3 hm

theorem prune_preserves_inv (c : ObservedBlobSidecars) (n : Nat)
    (hfs : 0 < c.finalized_slot) (hinv : slotAboveFinalized c = true) :
    0 < (prune c n).finalized_slot ∧ slotAboveFinalized (prune c n) = true := by
  by_cases hn : n = 0
  · subst hn
    exact ⟨hfs, hinv⟩
  · have hp : 0 < n := Nat.pos_of_ne_zero hn
    refine ⟨?_, prune_pos_slotAbove c n hp⟩
    rw [prune_pos_finalized_slot c n hp]
    exact hp

theorem applyOps_preserves_inv (m : Nat) (ops : List CacheOp) :
    ∀ c : ObservedBlobSidecars, 0 < c.finalized_slot → slotAboveFinalized c = true →
    0 < (applyOps m c ops).finalized_slot ∧
    slotAboveFinalized (applyOps m c ops) = true := by
  induction ops with
  | nil =>
    intro c h1 h2
    exact ⟨h1, h2⟩
  | cons op rest ih =>
    intro c h1 h2
    rw [applyOps_cons]
    cases op with
    | observe b =>
      have h3 := observe_preserves_inv m c b h1 h2
      exact ih _ h3.1 h3.2
    | prune n =>
      have h3 := prune_preserves_inv c n h1 h2
      exact ih _ h3.1 h3.2

/-- Claim C7: after a prune with a positive argument, every key in the
map has a slot component strictly greater than the stored
finalized_slot, and the invariant is preserved by any further sequence
of observe and prune calls. -/
theorem prune_then_ops_slot_invariant (m n : Nat) (c : ObservedBlobSidecars)
    (ops : List CacheOp) (hn : 0 < n) :
    slotAboveFinalized (applyOps m (prune c n) ops) = true := by
  have h1 : 0 < (prune c n).finalized_slot := by
    rw [prune_pos_finalized_slot c n hn]
    exact hn
  exact (applyOps_preserves_inv m ops (prune c n) h1 (prune_pos_slotAbove c n hn)).2

/-- Witness for claim C7 at a concrete input: prune cacheC at 4, then
an observe, a prune, and another observe. -/
theorem prune_then_ops_slot_invariant_app :
    slotAboveFinalized (applyOps 6 (prune cacheC 4)
      [CacheOp.observe sidecarA, CacheOp.prune 6, CacheOp.observe sidecarB]) = true :=
  prune_then_ops_slot_invariant 6 4 cacheC
    [CacheOp.observe sidecarA, CacheOp.prune 6, CacheOp.observe sidecarB] (by decide)

theorem allIndicesBounded_iff (m : Nat) (c : ObservedBlobSidecars) :
    allIndicesBounded m c = true ↔ ∀ kv ∈ c.items, ∀ i ∈ kv.2, i < m := by
  simp [allIndicesBounded]

theorem entryInsert_indices (items : List ((Nat × Nat) × List Nat)) (key : Nat × Nat) (v : Nat) :
    ∀ kv2 ∈ (entryInsert items key v).1, ∀ i ∈ kv2.2,
      i = v ∨ ∃ kv ∈ items, i ∈ kv.2 := by
  induction items with
  | nil =>
    intro kv2 h i hi
    simp [entryInsert] at h
    rw [h] at hi
    left
    simpa using hi
  | cons kv rest ih =>
    intro kv2 h i hi
    unfold entryInsert at h
    split_ifs at h with hk
    · rcases List.mem_cons.mp h with h1 | h2
      · have hi2 : i ∈ (hashSetInsert kv.2 v).1 := by
          rw [h1] at hi
          exact hi
        rcases (mem_hashSetInsert kv.2 v i).mp hi2 with h3 | h4
        · left
          exact h3
        · right
          exact ⟨kv, List.mem_cons_self _ _, h4⟩
      · right
        exact ⟨kv2, List.mem_cons_of_mem _ h2, hi⟩
    · rcases List.mem_cons.mp h with h1 | h2
      · right
        refine ⟨kv, List.mem_cons_self _ _, ?_⟩
        rw [h1] at hi
        exact hi
      · rcases ih kv2 h2 i hi with h3 | ⟨kv3, hm, hi3⟩
        · left
          exact h3
        · right
          exact ⟨kv3, List.mem_cons_of_mem _ hm, hi3⟩

theorem observe_preserves_bound (m : Nat) (c : ObservedBlobSidecars) (b : BlobSidecar)
    (hinv : allIndicesBounded m c = true) :
    allIndicesBounded m (observe_sidecar m c b).2 = true := by
  cases h : sanitize_blob_sidecar m c b with
  | error e =>
    rw [observe_of_sanitize_error m c b e h]
    exact hinv
  | ok u =>
    cases u
    rw [observe_of_sanitize_ok m c b h]
    rw [allIndicesBounded_iff] at hinv ⊢
    intro kv hkv i hi
    rcases entryInsert_indices c.items (b.block_root, b.slot) b.index kv hkv i hi with
      h1 | ⟨kv3, hm, hi3⟩
    · rw [h1]
      exact ((sanitize_ok_iff m c b).mp h).1
    · exact hinv kv3 hm i hi3

theorem prune_preserves_bound (m : Nat) (c : ObservedBlobSidecars) (n : Nat)
    (hinv : allIndicesBounded m c = true) :
    allIndicesBounded m (prune c n) = true := by
  by_cases hn : n = 0
  · subst hn
    exact hinv
  · rw [allIndicesBounded_iff] at hinv ⊢
    intro kv hkv i hi
    have hkv2 : kv ∈ c.items.filter (fun kv => decide (n < kv.1.2)) := by
      unfold prune at hkv
      rw [if_neg hn] at hkv
      exact hkv
    exact hinv kv (List.mem_filter.mp hkv2).1 i hi

/-- Claim C8: in every state reachable from the default cache by observe
and prune operations, every recorded index is strictly below
max_blobs_per_block. -/
theorem reachable_indices_bounded (m : Nat) (ops : List CacheOp) :
    allIndicesBounded m (applyOps m ObservedBlobSidecars.default ops) = true := by
  suffices h : ∀ ops2 : List CacheOp, ∀ c : ObservedBlobSidecars,
      allIndicesBounded m c = true → allIndicesBounded m (applyOps m c ops2) = true by
    exact h ops ObservedBlobSidecars.default rfl
  intro ops2
  induction ops2 with
  | nil =>
    intro c hc
    exact hc
  | cons op rest ih =>
    intro c hc
    rw [applyOps_cons]
    cases op with
    | observe b => exact ih _ (observe_preserves_bound m c b hc)
    | prune n => exact ih _ (prune_preserves_bound m c n hc)

/-- Witness for claim C8 at a concrete operation sequence. -/
theorem reachable_indices_bounded_app :
    allIndicesBounded 6 (applyOps 6 ObservedBlobSidecars.default
      [CacheOp.observe sidecarA, CacheOp.observe sidecarB, CacheOp.prune 1]) = true :=
  reachable_indices_bounded 6
    [CacheOp.observe sidecarA, CacheOp.observe sidecarB, CacheOp.prune 1]

/-- Claim C9: a successful observe changes the membership status of its
own (block_root, slot, index) triple only; the result of is_known on
any sidecar whose triple differs in at least one component is the same
after the observe as before it. -/
theorem observe_frame_effect (m : Nat) (c : ObservedBlobSidecars) (b b2 : BlobSidecar)
    (r : Bool)
    (hne : (b.block_root, b.slot, b.index) ≠ (b2.block_root, b2.slot, b2.index))
    (hobs : (observe_sidecar m c b).1 = .ok r) :
    is_known m (observe_sidecar m c b).2 b2 = is_known m c b2 := by
  cases h : sanitize_blob_sidecar m c b with
  | error e =>
    rw [observe_of_sanitize_error m c b e h] at hobs
    simp at hobs
  | ok u =>
    cases u
    rw [observe_of_sanitize_ok m c b h]
    have hsan : sanitize_blob_sidecar m
        { c with items := (entryInsert c.items (b.block_root, b.slot) b.index).1 } b2 =
        sanitize_blob_sidecar m c b2 :=
      sanitize_congr m _ c b2 rfl
    cases h2 : sanitize_blob_sidecar m c b2 with
    | error e2 =>
      rw [is_known_of_sanitize_error m _ b2 e2 (hsan.trans h2),
        is_known_of_sanitize_error m c b2 e2 h2]
    | ok u2 =>
      cases u2
      rw [is_known_of_sanitize_ok m _ b2 (hsan.trans h2),
        is_known_of_sanitize_ok m c b2 h2]
      congr 1
      apply mapContains_entryInsert_ne
      rintro ⟨hkey, hidx⟩
      apply hne
      have hroot : b2.block_root = b.block_root := congrArg Prod.fst hkey
      have hslot : b2.slot = b.slot := congrArg Prod.snd hkey
      rw [hroot, hslot, hidx]

/-- Witness for claim C9 at a concrete input: observing sidecarA does
not change the is_known verdict for sidecarB, which differs in index. -/
theorem observe_frame_effect_app :
    is_known 6 (observe_sidecar 6 ObservedBlobSidecars.default sidecarA).2 sidecarB =
    is_known 6 ObservedBlobSidecars.default sidecarB :=
  observe_frame_effect 6 ObservedBlobSidecars.default sidecarA sidecarB false
    (by decide) rfl

/-- Claim C10: the results and state effects of observe and is_known
depend only on the block_root, slot and index fields of the sidecar
together with the cache state; two sidecars agreeing on those three
fields are treated identically, whatever their payload fields hold. -/
theorem depends_only_on_key_fields (m : Nat) (c : ObservedBlobSidecars) (b b2 : BlobSidecar)
    (h1 : b.block_root = b2.block_root) (h2 : b.slot = b2.slot) (h3 : b.index = b2.index) :
    observe_sidecar m c b = observe_sidecar m c b2 ∧ is_known m c b = is_known m c b2 := by
  unfold observe_sidecar is_known sanitize_blob_sidecar
  rw [h1, h2, h3]
  exact ⟨rfl, rfl⟩

/-- Witness for claim C10 at a concrete input: sidecarA and sidecarA2
agree on block_root, slot and index and differ in every payload field. -/
theorem depends_only_on_key_fields_app :
    observe_sidecar 6 ObservedBlobSidecars.default sidecarA =
      observe_sidecar 6 ObservedBlobSidecars.default sidecarA2 ∧
    is_known 6 ObservedBlobSidecars.default sidecarA =
      is_known 6 ObservedBlobSidecars.default sidecarA2 :=
  depends_only_on_key_fields 6 ObservedBlobSidecars.default sidecarA sidecarA2 rfl rfl rfl
